import Mathlib

/-!
# Stop-waiting frame codec (`frames/stop_waiting_frame.go`)

A shallow embedding of `StopWaitingFrame.Write`, `StopWaitingFrame.MinLength` and
`ParseStopWaitingFrame`.

Conventions of the embedding:

* Go unsigned integers are natural numbers; every conversion and every subtraction of the
  source is written with its explicit reduction modulo `2 ^ w`.
* A `bytes.Buffer` is the list of bytes written so far (appending at the end); a
  `bytes.Reader` is the list of bytes not yet read (reading from the front).
* A Go function returning `error` while mutating its buffer returns the buffer together with
  `Option Error` (`none` is `nil`); a Go function returning `(value, error)` returns
  `Except Error value`, so that an error carries no value.
-/

namespace Frames

/-! ## Machine integers -/

/-- Conversion to `uint8`. -/
def uint8 (x : Nat) : Nat := x % 2 ^ 8

/-- Conversion to `uint16`. -/
def uint16 (x : Nat) : Nat := x % 2 ^ 16

/-- Conversion to `uint32`. -/
def uint32 (x : Nat) : Nat := x % 2 ^ 32

/-- Conversion to `uint64`. -/
def uint64 (x : Nat) : Nat := x % 2 ^ 64

/-- Subtraction of two 64-bit unsigned values, wrapping around as Go's `-` does. -/
def subUint64 (a b : Nat) : Nat := (uint64 a + 2 ^ 64 - uint64 b) % 2 ^ 64

/-! ## Errors -/

/-- The errors of the file: the three package-level error values, the anonymous error
created in `ParseStopWaitingFrame`, and the end-of-input error of the reader (`io.EOF`). -/
inductive Error where
  | errLeastUnackedHigherThanPacketNumber
  | errPacketNumberNotSet
  | errPacketNumberLenNotSet
  | errInvalidLeastUnackedDelta
  | EOF
  deriving DecidableEq, Repr

deriving instance DecidableEq for Except

/-! ## The `protocol` package -/

/-- Modelled from the spec: the declaration of `protocol.PacketNumberLen` and of its constants
is not among the sources. Section 3 gives the type as the enumeration of the widths 1, 2, 4 and
6 bytes together with the sentinel `Invalid` meaning "not yet set". -/
inductive PacketNumberLen where
  | PacketNumberLenInvalid
  | PacketNumberLen1
  | PacketNumberLen2
  | PacketNumberLen4
  | PacketNumberLen6
  deriving DecidableEq, Repr

/-- Modelled from the spec: the numeric value of a `protocol.PacketNumberLen`. A width is its
number of bytes (section 4.2: the wire length is `1 + 1 + packet_number_len`); the sentinel is
the zero value of the type, the value of a field that was never set. -/
def PacketNumberLen.toNat : PacketNumberLen → Nat
  | .PacketNumberLenInvalid => 0
  | .PacketNumberLen1 => 1
  | .PacketNumberLen2 => 2
  | .PacketNumberLen4 => 4
  | .PacketNumberLen6 => 6

/-! ## The `utils` package -/

/-- The `n` low-order bytes of `v`, most significant byte first. -/
def bigEndian : Nat → Nat → List Nat
  | 0, _ => []
  | n + 1, v => bigEndian n (v / 256) ++ [v % 256]

/-- The unsigned integer denoted by a byte string, most significant byte first. -/
def beValue (bs : List Nat) : Nat := bs.foldl (fun acc x => acc * 256 + x) 0

/-- Modelled from the spec: `utils.WriteUint16` is not among the sources. Section 4.1
(`write_truncated`): writes the low 2 bytes of the value in the protocol's fixed byte order,
which sections 4.2 and 8 fix as big-endian. -/
def WriteUint16 (b : List Nat) (v : Nat) : List Nat := b ++ bigEndian 2 v

/-- Modelled from the spec: `utils.WriteUint32` is not among the sources. Section 4.1
(`write_truncated`): writes the low 4 bytes of the value, big-endian. -/
def WriteUint32 (b : List Nat) (v : Nat) : List Nat := b ++ bigEndian 4 v

/-- Modelled from the spec: `utils.WriteUint48` is not among the sources. Section 4.1
(`write_truncated`): writes the low 6 bytes of the value, big-endian, without checking that
the value fits. -/
def WriteUint48 (b : List Nat) (v : Nat) : List Nat := b ++ bigEndian 6 v

/-- Modelled from the spec: `utils.ReadUintN` is not among the sources. Section 4.1
(`read_n_bytes`): reads exactly `width` bytes and returns them as an unsigned 64-bit value,
zero-extended; fails with the end-of-input error if fewer bytes are available. The second
component is the reader after the call. -/
def ReadUintN (r : List Nat) (length : Nat) : Except Error (Nat × List Nat) :=
  if r.length < length then .error .EOF
  else .ok (uint64 (beValue (r.take length)), r.drop length)

/-- The method `ReadByte` of `bytes.Reader`: the next byte and the advanced reader, or
`io.EOF` when nothing is left. -/
def ReadByte : List Nat → Except Error (Nat × List Nat)
  | [] => .error .EOF
  | x :: rest => .ok (x, rest)

/-- The method `WriteByte` of `bytes.Buffer`. -/
def WriteByte (b : List Nat) (c : Nat) : List Nat := b ++ [c]

/-! ## The frame -/

/-- A StopWaitingFrame in QUIC. -/
structure StopWaitingFrame where
  LeastUnacked : Nat
  Entropy : Nat
  PacketNumberLen : PacketNumberLen
  PacketNumber : Nat
  deriving DecidableEq, Repr

/-- The value of `&StopWaitingFrame{}`: every field at its zero value. -/
def StopWaitingFrame.zero : StopWaitingFrame :=
  { LeastUnacked := 0, Entropy := 0, PacketNumberLen := .PacketNumberLenInvalid,
    PacketNumber := 0 }

/-- The method `Write`: the buffer after the call and the returned error. -/
def StopWaitingFrame.Write (f : StopWaitingFrame) (b : List Nat) (_version : Nat) :
    List Nat × Option Error :=
  let typeByte := uint8 0x06
  let b := WriteByte b typeByte
  let b := WriteByte b f.Entropy
  if f.PacketNumber = 0 then (b, some .errPacketNumberNotSet)
  else if f.LeastUnacked > f.PacketNumber then
    (b, some .errLeastUnackedHigherThanPacketNumber)
  else
    let leastUnackedDelta := uint64 (subUint64 f.PacketNumber f.LeastUnacked)
    match f.PacketNumberLen with
    | .PacketNumberLen1 => (WriteByte b (uint8 leastUnackedDelta), none)
    | .PacketNumberLen2 => (WriteUint16 b (uint16 leastUnackedDelta), none)
    | .PacketNumberLen4 => (WriteUint32 b (uint32 leastUnackedDelta), none)
    | .PacketNumberLen6 => (WriteUint48 b leastUnackedDelta, none)
    | .PacketNumberLenInvalid => (b, some .errPacketNumberLenNotSet)

/-- The method `MinLength` of a written frame. -/
def StopWaitingFrame.MinLength (f : StopWaitingFrame) : Except Error Nat :=
  if f.PacketNumberLen = .PacketNumberLenInvalid then .error .errPacketNumberLenNotSet
  else .ok (1 + 1 + f.PacketNumberLen.toNat)

/-- The function `ParseStopWaitingFrame`: the frame and the reader after the call, or the
error (with which the source returns the `nil` frame). -/
def ParseStopWaitingFrame (r : List Nat) (packetNumber : Nat)
    (packetNumberLen : PacketNumberLen) : Except Error (StopWaitingFrame × List Nat) :=
  let frame := StopWaitingFrame.zero
  match ReadByte r with
  | .error err => .error err
  | .ok (_, r) =>
    match ReadByte r with
    | .error err => .error err
    | .ok (entropy, r) =>
      let frame := { frame with Entropy := entropy }
      match ReadUintN r (uint8 packetNumberLen.toNat) with
      | .error err => .error err
      | .ok (leastUnackedDelta, r) =>
        if leastUnackedDelta > uint64 packetNumber then .error .errInvalidLeastUnackedDelta
        else
          let frame :=
            { frame with LeastUnacked := subUint64 (uint64 packetNumber) leastUnackedDelta }
          .ok (frame, r)

/-! ## Well-formedness of inputs -/

/-- A buffer holds bytes. -/
def IsBytes (r : List Nat) : Prop := ∀ x ∈ r, x < 256

instance decidableIsBytes (r : List Nat) : Decidable (IsBytes r) := by
  unfold IsBytes; infer_instance

/-- The delta field of an input: the `packet_number_len` bytes after the type byte and the
entropy byte, read as an unsigned integer. -/
def deltaField (r : List Nat) (packetNumberLen : PacketNumberLen) : Nat :=
  beValue ((r.drop 2).take packetNumberLen.toNat)

/-! ## Example inputs -/

/-- The frame of the one-byte scenario: packet number 1000, least unacked 990. -/
def scenarioFrame : StopWaitingFrame :=
  { LeastUnacked := 990, Entropy := 0xAB, PacketNumberLen := .PacketNumberLen1,
    PacketNumber := 1000 }

/-- A frame whose width was never set: packet number 10, least unacked 5. -/
def noLenFrame : StopWaitingFrame :=
  { LeastUnacked := 5, Entropy := 0, PacketNumberLen := .PacketNumberLenInvalid,
    PacketNumber := 10 }

/-- A frame whose packet number was never set, with least unacked 1 and width 1. -/
def noPacketNumberFrame : StopWaitingFrame :=
  { LeastUnacked := 1, Entropy := 0, PacketNumberLen := .PacketNumberLen1,
    PacketNumber := 0 }

/-- A frame announcing a least unacked packet number 11 above its packet number 10. -/
def aheadFrame : StopWaitingFrame :=
  { LeastUnacked := 11, Entropy := 0, PacketNumberLen := .PacketNumberLen2,
    PacketNumber := 10 }

/-- A frame whose delta 1000 does not fit in its width of one byte. -/
def wideDeltaFrame : StopWaitingFrame :=
  { LeastUnacked := 0, Entropy := 0, PacketNumberLen := .PacketNumberLen1,
    PacketNumber := 1000 }

/-- The frame of the multi-byte scenario: packet number 100000, least unacked 99000. -/
def multiByteFrame : StopWaitingFrame :=
  { LeastUnacked := 99000, Entropy := 0x5C, PacketNumberLen := .PacketNumberLen2,
    PacketNumber := 100000 }

/-! ## Lemmas on the byte order -/

theorem beValue_append_singleton (xs : List Nat) (y : Nat) :
    beValue (xs ++ [y]) = beValue xs * 256 + y := by
  simp [beValue, List.foldl_append]

theorem length_bigEndian (n v : Nat) : (bigEndian n v).length = n := by
  induction n generalizing v with
  | zero => rfl
  | succ n ih => simp [bigEndian, ih]

theorem beValue_bigEndian (n v : Nat) : beValue (bigEndian n v) = v % 256 ^ n := by
  induction n generalizing v with
  | zero => simp [bigEndian, beValue, Nat.mod_one]
  | succ n ih =>
    rw [bigEndian, beValue_append_singleton, ih, pow_succ', Nat.mod_mul]
    omega

theorem bigEndian_congr (n a b : Nat) (h : a % 256 ^ n = b % 256 ^ n) :
    bigEndian n a = bigEndian n b := by
  induction n generalizing a b with
  | zero => rfl
  | succ n ih =>
    rw [pow_succ', Nat.mod_mul, Nat.mod_mul] at h
    have h1 : a % 256 = b % 256 := by omega
    have h2 : a / 256 % 256 ^ n = b / 256 % 256 ^ n := by omega
    simp [bigEndian, ih _ _ h2, h1]

theorem isBytes_bigEndian (n v : Nat) : IsBytes (bigEndian n v) := by
  induction n generalizing v with
  | zero => intro x hx; simp [bigEndian] at hx
  | succ n ih =>
    intro x hx
    simp only [bigEndian, List.mem_append, List.mem_singleton] at hx
    rcases hx with hx | hx
    · exact ih _ x hx
    · omega

theorem beValue_lt (bs : List Nat) (h : IsBytes bs) : beValue bs < 256 ^ bs.length := by
  induction bs using List.reverseRecOn with
  | nil => simp [beValue]
  | append_singleton xs y ih =>
    have hy : y < 256 := h y (by simp)
    have hxs : beValue xs < 256 ^ xs.length := ih (fun x hx => h x (by simp [hx]))
    rw [beValue_append_singleton, List.length_append, List.length_singleton, pow_succ]
    omega

/-- The wrapping subtraction is the exact difference when nothing wraps. -/
theorem subUint64_eq (a b : Nat) (hb : b ≤ a) (ha : a < 2 ^ 64) : subUint64 a b = a - b := by
  unfold subUint64 uint64
  omega

/-- The wrapping subtraction of `b ≤ a` is the difference reduced modulo `2 ^ 64`. -/
theorem subUint64_mod (a b : Nat) (hb : b ≤ a) : subUint64 a b = (a - b) % 2 ^ 64 := by
  unfold subUint64 uint64
  omega

/-! ## The two codec functions in closed form -/

/-- The low-order bytes written for a delta do not depend on the intermediate conversions. -/
theorem bigEndian_delta (n a b : Nat) (hn : n ≤ 8) (hb : b ≤ a) (w : Nat)
    (hw : w = uint64 (subUint64 a b) ∨ w = uint8 (uint64 (subUint64 a b)) ∧ n = 1 ∨
      w = uint16 (uint64 (subUint64 a b)) ∧ n = 2 ∨
      w = uint32 (uint64 (subUint64 a b)) ∧ n = 4) :
    bigEndian n w = bigEndian n (a - b) := by
  apply bigEndian_congr
  have hmod : ∀ x : Nat, x % 2 ^ 64 % 256 ^ n = x % 256 ^ n := by
    intro x
    apply Nat.mod_mod_of_dvd
    have : (2 : Nat) ^ 64 = 256 ^ 8 := by norm_num
    rw [this]
    exact pow_dvd_pow 256 hn
  rw [subUint64_mod a b hb] at hw
  rcases hw with h | ⟨h, rfl⟩ | ⟨h, rfl⟩ | ⟨h, rfl⟩
  · rw [h, uint64, Nat.mod_mod, hmod]
  · rw [h]; unfold uint8 uint64; omega
  · rw [h]; unfold uint16 uint64; omega
  · rw [h]; unfold uint32 uint64; omega

/-- When its three checks pass, `Write` appends the type byte, the entropy byte and the
low-order bytes of the delta. -/
theorem write_of_valid (f : StopWaitingFrame) (b : List Nat) (v : Nat)
    (h0 : f.PacketNumber ≠ 0) (hle : f.LeastUnacked ≤ f.PacketNumber)
    (hlen : f.PacketNumberLen ≠ .PacketNumberLenInvalid) :
    f.Write b v = (b ++ [0x06, f.Entropy] ++
      bigEndian f.PacketNumberLen.toNat (f.PacketNumber - f.LeastUnacked), none) := by
  have hgt : ¬ f.LeastUnacked > f.PacketNumber := Nat.not_lt.2 hle
  unfold StopWaitingFrame.Write
  simp only [h0, hgt, if_false]
  cases hl : f.PacketNumberLen with
  | PacketNumberLenInvalid => exact absurd hl hlen
  | PacketNumberLen1 =>
    simp only [PacketNumberLen.toNat]
    rw [← bigEndian_delta 1 _ _ (by omega) hle _ (Or.inr (Or.inl ⟨rfl, rfl⟩))]
    simp [WriteByte, bigEndian, uint8]
  | PacketNumberLen2 =>
    simp only [PacketNumberLen.toNat]
    rw [← bigEndian_delta 2 _ _ (by omega) hle _ (Or.inr (Or.inr (Or.inl ⟨rfl, rfl⟩)))]
    simp [WriteByte, WriteUint16, uint8]
  | PacketNumberLen4 =>
    simp only [PacketNumberLen.toNat]
    rw [← bigEndian_delta 4 _ _ (by omega) hle _ (Or.inr (Or.inr (Or.inr ⟨rfl, rfl⟩)))]
    simp [WriteByte, WriteUint32, uint8]
  | PacketNumberLen6 =>
    simp only [PacketNumberLen.toNat]
    rw [← bigEndian_delta 6 _ _ (by omega) hle _ (Or.inl rfl)]
    simp [WriteByte, WriteUint48, uint8]

/-- The width converted to `uint8` is the width. -/
theorem uint8_toNat (l : PacketNumberLen) : uint8 l.toNat = l.toNat := by
  cases l <;> rfl

/-- On an input of at least two bytes, `ParseStopWaitingFrame` is decided by the delta field. -/
theorem parse_cons_cons (t e : Nat) (rest : List Nat) (pn : Nat) (l : PacketNumberLen) :
    ParseStopWaitingFrame (t :: e :: rest) pn l =
      if rest.length < l.toNat then .error .EOF
      else if uint64 (beValue (rest.take l.toNat)) > uint64 pn then
        .error .errInvalidLeastUnackedDelta
      else .ok ({ StopWaitingFrame.zero with
                  Entropy := e
                  LeastUnacked :=
                    subUint64 (uint64 pn) (uint64 (beValue (rest.take l.toNat))) },
                rest.drop l.toNat) := by
  by_cases h1 : rest.length < l.toNat
  · simp [ParseStopWaitingFrame, ReadByte, ReadUintN, uint8_toNat, h1]
  · by_cases h2 : uint64 (beValue (rest.take l.toNat)) > uint64 pn
    · simp [ParseStopWaitingFrame, ReadByte, ReadUintN, uint8_toNat, h1, h2]
    · simp [ParseStopWaitingFrame, ReadByte, ReadUintN, uint8_toNat, h1, h2]

/-- A delta field of at most eight bytes is not changed by its conversion to `uint64`. -/
theorem uint64_beValue_take (rest : List Nat) (n : Nat) (hn : n ≤ 8) (hr : IsBytes rest) :
    uint64 (beValue (rest.take n)) = beValue (rest.take n) := by
  have hb : IsBytes (rest.take n) := fun x hx => hr x (List.mem_of_mem_take hx)
  have h1 := beValue_lt _ hb
  have h2 : 256 ^ (rest.take n).length ≤ 256 ^ 8 :=
    Nat.pow_le_pow_right (by norm_num) (le_trans (List.length_take_le _ _) hn)
  have h3 : (256 : Nat) ^ 8 = 2 ^ 64 := by norm_num
  unfold uint64
  exact Nat.mod_eq_of_lt (by omega)

theorem toNat_le_eight (l : PacketNumberLen) : l.toNat ≤ 8 := by
  cases l <;> simp [PacketNumberLen.toNat]

/-- The error returned by `Write`, check by check. -/
theorem write_error (f : StopWaitingFrame) (b : List Nat) (v : Nat) :
    (f.Write b v).2 =
      if f.PacketNumber = 0 then some .errPacketNumberNotSet
      else if f.LeastUnacked > f.PacketNumber then
        some .errLeastUnackedHigherThanPacketNumber
      else if f.PacketNumberLen = .PacketNumberLenInvalid then
        some .errPacketNumberLenNotSet
      else none := by
  unfold StopWaitingFrame.Write
  by_cases h0 : f.PacketNumber = 0
  · simp [h0]
  · by_cases h1 : f.LeastUnacked > f.PacketNumber
    · simp [h0, h1]
    · simp only [h0, h1, if_false]
      cases f.PacketNumberLen <;> simp

/-- Decoding a type byte, an entropy byte and the low-order bytes of `d`. -/
theorem parse_bigEndian (t e d pn : Nat) (l : PacketNumberLen) (hpn : pn < 2 ^ 64)
    (hd : d % 256 ^ l.toNat ≤ pn) :
    ParseStopWaitingFrame (t :: e :: bigEndian l.toNat d) pn l =
      .ok ({ StopWaitingFrame.zero with
             Entropy := e
             LeastUnacked := pn - d % 256 ^ l.toNat }, []) := by
  have hu : uint64 pn = pn := Nat.mod_eq_of_lt hpn
  have hv : uint64 (d % 256 ^ l.toNat) = d % 256 ^ l.toNat :=
    Nat.mod_eq_of_lt (lt_of_le_of_lt hd hpn)
  have htake : (bigEndian l.toNat d).take l.toNat = bigEndian l.toNat d :=
    List.take_of_length_le (le_of_eq (length_bigEndian _ _))
  have hdrop : (bigEndian l.toNat d).drop l.toNat = [] :=
    List.drop_of_length_le (le_of_eq (length_bigEndian _ _))
  rw [parse_cons_cons, length_bigEndian, htake, hdrop, beValue_bigEndian, hu, hv,
    subUint64_eq _ _ hd hpn]
  simp [Nat.not_lt.2 hd]

/-- An input of at least two bytes starts with a type byte and an entropy byte. -/
theorem exists_cons_cons (r : List Nat) (n : Nat) (h : 2 + n ≤ r.length) :
    ∃ t e rest, r = t :: e :: rest ∧ n ≤ rest.length := by
  match r, h with
  | [], h => exact absurd h (by simp)
  | [_], h => exact absurd h (by simp; omega)
  | t :: e :: rest, h => exact ⟨t, e, rest, rfl, by simp at h; omega⟩

theorem two_pow_eight_mul (n : Nat) : 2 ^ (8 * n) = 256 ^ n := by
  rw [pow_mul]; norm_num

/-! ## Properties of the codec -/

/-- C1 (round trip): for every frame with a 64-bit `PacketNumber ≠ 0`,
`LeastUnacked ≤ PacketNumber`, a width among 1, 2, 4, 6 (the width is set) and a delta below
`2 ^ (8 * width)`, `Write` on the empty buffer
succeeds, and `ParseStopWaitingFrame` on the written bytes, with the frame's packet number
and width as ambient values, succeeds and returns a frame with the same entropy and the same
least unacked packet number. -/
theorem write_parse_round_trip (f : StopWaitingFrame) (version : Nat)
    (hpn : f.PacketNumber < 2 ^ 64)
    (h0 : f.PacketNumber ≠ 0)
    (hle : f.LeastUnacked ≤ f.PacketNumber)
    (hlen : f.PacketNumberLen ≠ .PacketNumberLenInvalid)
    (hfit : f.PacketNumber - f.LeastUnacked < 2 ^ (8 * f.PacketNumberLen.toNat)) :
    (f.Write [] version).2 = none ∧
    ∃ g rest,
      ParseStopWaitingFrame (f.Write [] version).1 f.PacketNumber f.PacketNumberLen
        = .ok (g, rest) ∧
      g.Entropy = f.Entropy ∧ g.LeastUnacked = f.LeastUnacked := by
  rw [write_of_valid f [] version h0 hle hlen]
  rw [two_pow_eight_mul] at hfit
  have hmod := Nat.mod_eq_of_lt hfit
  refine ⟨rfl, _, _, parse_bigEndian _ _ _ _ _ hpn (by omega), rfl, ?_⟩
  show f.PacketNumber - (f.PacketNumber - f.LeastUnacked) % 256 ^ f.PacketNumberLen.toNat
    = f.LeastUnacked
  omega

/-- Witness of C1 at the frame of the one-byte scenario. -/
theorem write_parse_round_trip_witness :
    scenarioFrame.PacketNumber < 2 ^ 64 ∧
    scenarioFrame.PacketNumber ≠ 0 ∧
    scenarioFrame.LeastUnacked ≤ scenarioFrame.PacketNumber ∧
    scenarioFrame.PacketNumberLen ≠ .PacketNumberLenInvalid ∧
    scenarioFrame.PacketNumber - scenarioFrame.LeastUnacked
      < 2 ^ (8 * scenarioFrame.PacketNumberLen.toNat) ∧
    ((scenarioFrame.Write [] 0).2 = none ∧
      ∃ g rest,
        ParseStopWaitingFrame (scenarioFrame.Write [] 0).1 scenarioFrame.PacketNumber
          scenarioFrame.PacketNumberLen = .ok (g, rest) ∧
        g.Entropy = scenarioFrame.Entropy ∧ g.LeastUnacked = scenarioFrame.LeastUnacked) :=
  ⟨by decide, by decide, by decide, by decide, by decide,
    write_parse_round_trip scenarioFrame 0 (by decide) (by decide) (by decide) (by decide)
      (by decide)⟩

/-- C2 (underflow rejection): for every input of at least `2 + packet_number_len` bytes whose
delta field, read as an unsigned integer, is greater than the ambient packet number,
`ParseStopWaitingFrame` fails with the invalid-delta error; the result being an error, no
frame and so no wrapped-around least unacked packet number is returned. -/
theorem parse_rejects_underflow (r : List Nat) (packetNumber : Nat) (l : PacketNumberLen)
    (hbytes : IsBytes r)
    (hlen : 2 + l.toNat ≤ r.length)
    (hdelta : deltaField r l > packetNumber) :
    ParseStopWaitingFrame r packetNumber l = .error .errInvalidLeastUnackedDelta := by
  obtain ⟨t, e, rest, rfl, hrest⟩ := exists_cons_cons r l.toNat hlen
  have hb : IsBytes rest := fun x hx => hbytes x (by simp [hx])
  have hu := uint64_beValue_take rest l.toNat (toNat_le_eight l) hb
  have hpn : uint64 packetNumber ≤ packetNumber := Nat.mod_le _ _
  have hd : beValue (rest.take l.toNat) > packetNumber := by
    simpa [deltaField] using hdelta
  rw [parse_cons_cons, hu]
  have h2 : beValue (rest.take l.toNat) > uint64 packetNumber := by omega
  simp [Nat.not_lt.2 hrest, h2]

/-- Witness of C2: the delta 10 under the ambient packet number 5. -/
theorem parse_rejects_underflow_witness :
    IsBytes [0x06, 0xAB, 0x0A] ∧
    2 + PacketNumberLen.PacketNumberLen1.toNat ≤ [0x06, 0xAB, 0x0A].length ∧
    deltaField [0x06, 0xAB, 0x0A] .PacketNumberLen1 > 5 ∧
    ParseStopWaitingFrame [0x06, 0xAB, 0x0A] 5 .PacketNumberLen1
      = .error .errInvalidLeastUnackedDelta :=
  ⟨by decide, by decide, by decide,
    parse_rejects_underflow [0x06, 0xAB, 0x0A] 5 .PacketNumberLen1 (by decide) (by decide)
      (by decide)⟩

/-- C3 (decode postcondition): for every width (1, 2, 4 or 6 in particular) and every input
of at least `2 + packet_number_len` bytes whose delta field is at most the 64-bit ambient
packet number, `ParseStopWaitingFrame` succeeds; the entropy of the frame is the second input byte
and its least unacked packet number is the ambient packet number minus the delta, without
wrap, so that it is at most the ambient packet number. -/
theorem parse_postcondition (r : List Nat) (packetNumber : Nat) (l : PacketNumberLen)
    (hbytes : IsBytes r)
    (hpn : packetNumber < 2 ^ 64)
    (hlen : 2 + l.toNat ≤ r.length)
    (hdelta : deltaField r l ≤ packetNumber) :
    ∃ g rest,
      ParseStopWaitingFrame r packetNumber l = .ok (g, rest) ∧
      r[1]? = some g.Entropy ∧
      g.LeastUnacked + deltaField r l = packetNumber ∧
      g.LeastUnacked = packetNumber - deltaField r l ∧
      g.LeastUnacked ≤ packetNumber := by
  obtain ⟨t, e, rest, rfl, hrest⟩ := exists_cons_cons r l.toNat hlen
  have hb : IsBytes rest := fun x hx => hbytes x (by simp [hx])
  have hu := uint64_beValue_take rest l.toNat (toNat_le_eight l) hb
  have hv : uint64 packetNumber = packetNumber := Nat.mod_eq_of_lt hpn
  have hd : beValue (rest.take l.toNat) ≤ packetNumber := by
    simpa [deltaField] using hdelta
  have hdf : deltaField (t :: e :: rest) l = beValue (rest.take l.toNat) := by
    simp [deltaField]
  rw [parse_cons_cons, hu, hv, subUint64_eq _ _ hd hpn, hdf]
  simp only [Nat.not_lt.2 hrest, if_false, gt_iff_lt, Nat.not_lt.2 hd]
  refine ⟨_, _, rfl, by simp, ?_, rfl, ?_⟩
  · show packetNumber - beValue (rest.take l.toNat) + beValue (rest.take l.toNat)
      = packetNumber
    omega
  · show packetNumber - beValue (rest.take l.toNat) ≤ packetNumber
    omega

/-- Witness of C3: the one-byte scenario, followed by one more byte. -/
theorem parse_postcondition_witness :
    IsBytes [0x06, 0xAB, 0x0A, 0xFF] ∧
    (1000 : Nat) < 2 ^ 64 ∧
    2 + PacketNumberLen.PacketNumberLen1.toNat ≤ [0x06, 0xAB, 0x0A, 0xFF].length ∧
    deltaField [0x06, 0xAB, 0x0A, 0xFF] .PacketNumberLen1 ≤ 1000 ∧
    ∃ g rest,
      ParseStopWaitingFrame [0x06, 0xAB, 0x0A, 0xFF] 1000 .PacketNumberLen1 = .ok (g, rest) ∧
      [0x06, 0xAB, 0x0A, 0xFF][1]? = some g.Entropy ∧
      g.LeastUnacked + deltaField [0x06, 0xAB, 0x0A, 0xFF] .PacketNumberLen1 = 1000 ∧
      g.LeastUnacked = 1000 - deltaField [0x06, 0xAB, 0x0A, 0xFF] .PacketNumberLen1 ∧
      g.LeastUnacked ≤ 1000 :=
  ⟨by decide, by decide, by decide, by decide,
    parse_postcondition [0x06, 0xAB, 0x0A, 0xFF] 1000 .PacketNumberLen1 (by decide)
      (by decide) (by decide) (by decide)⟩

/-- C4 (truncated input): for every width, every ambient packet number and every input shorter
than `2 + packet_number_len` bytes, the empty input included, `ParseStopWaitingFrame` fails
with the end-of-input error of the reader, and the result being an error, returns no frame. -/
theorem parse_rejects_truncated (r : List Nat) (packetNumber : Nat) (l : PacketNumberLen)
    (hshort : r.length < 2 + l.toNat) :
    ParseStopWaitingFrame r packetNumber l = .error .EOF := by
  match r, hshort with
  | [], _ => rfl
  | [_], _ => rfl
  | t :: e :: rest, h =>
    have h1 : rest.length < l.toNat := by simp at h; omega
    rw [parse_cons_cons]
    simp [h1]

/-- Witness of C4: a six-byte width and an input of seven bytes, one short. -/
theorem parse_rejects_truncated_witness :
    [0x06, 0xAB, 1, 2, 3, 4, 5].length < 2 + PacketNumberLen.PacketNumberLen6.toNat ∧
    ParseStopWaitingFrame [0x06, 0xAB, 1, 2, 3, 4, 5] 1000 .PacketNumberLen6 = .error .EOF :=
  ⟨by decide, parse_rejects_truncated [0x06, 0xAB, 1, 2, 3, 4, 5] 1000 .PacketNumberLen6
    (by decide)⟩

/-- C5 (length consistency): for every frame and buffer on which `Write` succeeds, `MinLength`
succeeds too and its result is the number of bytes that `Write` appended, which is
`2 + packet_number_len`. -/
theorem minLength_eq_written (f : StopWaitingFrame) (b : List Nat) (version : Nat)
    (hok : (f.Write b version).2 = none) :
    f.MinLength = .ok ((f.Write b version).1.length - b.length) ∧
    (f.Write b version).1.length = b.length + (2 + f.PacketNumberLen.toNat) ∧
    (f.Write b version).1.take b.length = b := by
  rw [write_error] at hok
  have h0 : f.PacketNumber ≠ 0 := by
    intro h; simp [h] at hok
  have hle : f.LeastUnacked ≤ f.PacketNumber := by
    by_contra h; simp [h0, Nat.lt_of_not_le h] at hok
  have hlen : f.PacketNumberLen ≠ .PacketNumberLenInvalid := by
    intro h; simp [h0, Nat.not_lt.2 hle, h] at hok
  rw [write_of_valid f b version h0 hle hlen]
  have hlength : (b ++ [0x06, f.Entropy] ++
      bigEndian f.PacketNumberLen.toNat (f.PacketNumber - f.LeastUnacked)).length
      = b.length + (2 + f.PacketNumberLen.toNat) := by
    simp [length_bigEndian]; omega
  refine ⟨?_, hlength, ?_⟩
  · simp only [hlength, StopWaitingFrame.MinLength, hlen, if_false]
    congr 1; omega
  · simp [List.append_assoc, List.take_append_eq_append_take]

/-- Witness of C5 at the frame of the one-byte scenario, written after one earlier byte. -/
theorem minLength_eq_written_witness :
    (scenarioFrame.Write [0x01] 0).2 = none ∧
    (scenarioFrame.MinLength = .ok ((scenarioFrame.Write [0x01] 0).1.length - [0x01].length) ∧
      (scenarioFrame.Write [0x01] 0).1.length
        = [0x01].length + (2 + scenarioFrame.PacketNumberLen.toNat) ∧
      (scenarioFrame.Write [0x01] 0).1.take [0x01].length = [0x01]) :=
  ⟨by decide, minLength_eq_written scenarioFrame [0x01] 0 (by decide)⟩

/-- C6 (validation order of `Write`): for every frame, the error is `errPacketNumberNotSet`
if the packet number is 0; otherwise `errLeastUnackedHigherThanPacketNumber` if the least
unacked packet number exceeds the packet number; otherwise `errPacketNumberLenNotSet` if the
width is not one of 1, 2, 4, 6; otherwise there is none. With an unset width and one of the
first two conditions violated, the error is therefore that of the earlier check. -/
theorem write_validation_order (f : StopWaitingFrame) (b : List Nat) (version : Nat) :
    (f.Write b version).2 =
      if f.PacketNumber = 0 then some .errPacketNumberNotSet
      else if f.LeastUnacked > f.PacketNumber then
        some .errLeastUnackedHigherThanPacketNumber
      else if ¬ (f.PacketNumberLen.toNat = 1 ∨ f.PacketNumberLen.toNat = 2 ∨
          f.PacketNumberLen.toNat = 4 ∨ f.PacketNumberLen.toNat = 6) then
        some .errPacketNumberLenNotSet
      else none := by
  rw [write_error]
  cases f.PacketNumberLen <;> simp [PacketNumberLen.toNat]

/-- C7, as stated, fails: the zero frame, with an unset width and the packet number 0, gets
`errPacketNumberNotSet`, not `errPacketNumberLenNotSet`. -/
theorem write_invalid_len_counterexample :
    StopWaitingFrame.zero.PacketNumberLen = .PacketNumberLenInvalid ∧
    (StopWaitingFrame.zero.Write [] 0).2 = some .errPacketNumberNotSet ∧
    (StopWaitingFrame.zero.Write [] 0).2 ≠ some .errPacketNumberLenNotSet := by
  decide

/-- C7, amended: for every frame whose width is unset, `Write` fails; the error is
`errPacketNumberLenNotSet` when the packet number is not 0 and the least unacked packet
number does not exceed it, and the error of the earlier check otherwise. -/
theorem write_invalid_len (f : StopWaitingFrame) (b : List Nat) (version : Nat)
    (hlen : f.PacketNumberLen = .PacketNumberLenInvalid) :
    (f.Write b version).2 = some
      (if f.PacketNumber = 0 then .errPacketNumberNotSet
       else if f.LeastUnacked > f.PacketNumber then .errLeastUnackedHigherThanPacketNumber
       else .errPacketNumberLenNotSet) := by
  rw [write_error]
  split_ifs <;> rfl

/-- Witness of the amended C7: packet number 10, least unacked 5, width unset. -/
theorem write_invalid_len_witness :
    noLenFrame.PacketNumberLen = .PacketNumberLenInvalid ∧
    (noLenFrame.Write [] 0).2 = some
      (if noLenFrame.PacketNumber = 0 then .errPacketNumberNotSet
       else if noLenFrame.LeastUnacked > noLenFrame.PacketNumber then
        .errLeastUnackedHigherThanPacketNumber
       else .errPacketNumberLenNotSet) :=
  ⟨rfl, write_invalid_len noLenFrame [] 0 rfl⟩

/-- C8, as stated, fails: a frame with the packet number 0 and the least unacked packet
number 1 gets `errPacketNumberNotSet`, not `errLeastUnackedHigherThanPacketNumber`. -/
theorem write_least_unacked_higher_counterexample :
    noPacketNumberFrame.LeastUnacked > noPacketNumberFrame.PacketNumber ∧
    (noPacketNumberFrame.Write [] 0).2 = some .errPacketNumberNotSet ∧
    (noPacketNumberFrame.Write [] 0).2 ≠ some .errLeastUnackedHigherThanPacketNumber := by
  decide

/-- C8, amended: for every frame whose least unacked packet number exceeds its packet number,
`Write` fails, whatever the width, valid or unset; the error is
`errLeastUnackedHigherThanPacketNumber` when the packet number is not 0 and
`errPacketNumberNotSet` when it is 0. -/
theorem write_least_unacked_higher (f : StopWaitingFrame) (b : List Nat) (version : Nat)
    (hgt : f.LeastUnacked > f.PacketNumber) :
    (f.Write b version).2 = some
      (if f.PacketNumber = 0 then .errPacketNumberNotSet
       else .errLeastUnackedHigherThanPacketNumber) := by
  rw [write_error]
  split_ifs <;> rfl

/-- Witness of the amended C8: packet number 10, least unacked 11, width 2. -/
theorem write_least_unacked_higher_witness :
    aheadFrame.LeastUnacked > aheadFrame.PacketNumber ∧
    (aheadFrame.Write [] 0).2 = some
      (if aheadFrame.PacketNumber = 0 then .errPacketNumberNotSet
       else .errLeastUnackedHigherThanPacketNumber) :=
  ⟨by decide, write_least_unacked_higher aheadFrame [] 0 (by decide)⟩

/-- C9 (`MinLength` depends on the width only): whatever the least unacked packet number, the
entropy and the packet number of a frame, `MinLength` fails with `errPacketNumberLenNotSet`
when the width is unset and returns `1 + 1 + packet_number_len` otherwise; this covers the
frames with packet number 0 or with a least unacked packet number above the packet number,
on which `Write` fails. -/
theorem minLength_depends_on_len_only (leastUnacked entropy packetNumber : Nat)
    (l : PacketNumberLen) :
    (StopWaitingFrame.mk leastUnacked entropy l packetNumber).MinLength =
      if l = .PacketNumberLenInvalid then .error .errPacketNumberLenNotSet
      else .ok (1 + 1 + l.toNat) := by
  rfl

/-- C10, as stated, fails: with packet number 1000, least unacked 0 and width 1 the delta 1000
does not fit in one byte, and `Write` succeeds, writing its low-order byte 232. -/
theorem write_delta_width_counterexample :
    wideDeltaFrame.PacketNumber ≠ 0 ∧
    wideDeltaFrame.LeastUnacked ≤ wideDeltaFrame.PacketNumber ∧
    wideDeltaFrame.PacketNumberLen = .PacketNumberLen1 ∧
    wideDeltaFrame.PacketNumber - wideDeltaFrame.LeastUnacked
      ≥ 2 ^ (8 * wideDeltaFrame.PacketNumberLen.toNat) ∧
    wideDeltaFrame.Write [] 0 = ([0x06, 0, 232], none) := by
  decide

/-- C10, amended: for every frame with a packet number other than 0, a least unacked packet
number at most the packet number and a width among 1, 2, 4, 6 whose delta does not fit in
the width, `Write` succeeds; the delta is not validated, and the bytes written after the
type byte and the entropy byte are those of the delta modulo `2 ^ (8 * width)`, a value
below the delta. -/
theorem write_delta_width (f : StopWaitingFrame) (b : List Nat) (version : Nat)
    (h0 : f.PacketNumber ≠ 0)
    (hle : f.LeastUnacked ≤ f.PacketNumber)
    (hlen : f.PacketNumberLen ≠ .PacketNumberLenInvalid)
    (hbig : f.PacketNumber - f.LeastUnacked ≥ 2 ^ (8 * f.PacketNumberLen.toNat)) :
    ∃ field,
      f.Write b version = (b ++ [0x06, f.Entropy] ++ field, none) ∧
      field.length = f.PacketNumberLen.toNat ∧
      IsBytes field ∧
      beValue field = (f.PacketNumber - f.LeastUnacked) % 2 ^ (8 * f.PacketNumberLen.toNat) ∧
      beValue field < f.PacketNumber - f.LeastUnacked := by
  refine ⟨bigEndian f.PacketNumberLen.toNat (f.PacketNumber - f.LeastUnacked),
    write_of_valid f b version h0 hle hlen, length_bigEndian _ _, isBytes_bigEndian _ _, ?_, ?_⟩
  · rw [beValue_bigEndian, two_pow_eight_mul]
  · rw [beValue_bigEndian]
    rw [two_pow_eight_mul] at hbig
    exact lt_of_lt_of_le (Nat.mod_lt _ (by positivity)) hbig

/-- Witness of the amended C10: packet number 1000, least unacked 0, width 1. -/
theorem write_delta_width_witness :
    wideDeltaFrame.PacketNumber ≠ 0 ∧
    wideDeltaFrame.LeastUnacked ≤ wideDeltaFrame.PacketNumber ∧
    wideDeltaFrame.PacketNumberLen ≠ .PacketNumberLenInvalid ∧
    wideDeltaFrame.PacketNumber - wideDeltaFrame.LeastUnacked
      ≥ 2 ^ (8 * wideDeltaFrame.PacketNumberLen.toNat) ∧
    ∃ field,
      wideDeltaFrame.Write [] 0 = ([] ++ [0x06, wideDeltaFrame.Entropy] ++ field, none) ∧
      field.length = wideDeltaFrame.PacketNumberLen.toNat ∧
      IsBytes field ∧
      beValue field
        = (wideDeltaFrame.PacketNumber - wideDeltaFrame.LeastUnacked)
          % 2 ^ (8 * wideDeltaFrame.PacketNumberLen.toNat) ∧
      beValue field < wideDeltaFrame.PacketNumber - wideDeltaFrame.LeastUnacked :=
  ⟨by decide, by decide, by decide, by decide,
    write_delta_width wideDeltaFrame [] 0 (by decide) (by decide) (by decide) (by decide)⟩

/-! ## Further lemmas on the two codec functions -/

/-- Whatever `Write` returns, the buffer starts with the old contents, the type byte and the
entropy byte; a failing call appends nothing more. -/
theorem write_buffer_of_error (f : StopWaitingFrame) (b : List Nat) (v : Nat)
    (h : (f.Write b v).2 ≠ none) : (f.Write b v).1 = b ++ [0x06, f.Entropy] := by
  unfold StopWaitingFrame.Write at h ⊢
  by_cases h0 : f.PacketNumber = 0
  · simp [h0, WriteByte, uint8]
  · by_cases h1 : f.LeastUnacked > f.PacketNumber
    · simp [h0, h1, WriteByte, uint8]
    · simp only [h0, h1, if_false] at h ⊢
      cases hl : f.PacketNumberLen <;> simp [hl, WriteByte, uint8] at h ⊢

/-- A successful `ParseStopWaitingFrame` read a type byte, an entropy byte and a delta field
that does not exceed the ambient packet number. -/
theorem parse_ok_inv (r : List Nat) (pn : Nat) (l : PacketNumberLen) (g : StopWaitingFrame)
    (rest : List Nat) (h : ParseStopWaitingFrame r pn l = .ok (g, rest)) :
    ∃ t e tail, r = t :: e :: tail ∧ l.toNat ≤ tail.length ∧
      uint64 (beValue (tail.take l.toNat)) ≤ uint64 pn ∧
      g = { StopWaitingFrame.zero with
            Entropy := e
            LeastUnacked := subUint64 (uint64 pn) (uint64 (beValue (tail.take l.toNat))) } ∧
      rest = tail.drop l.toNat := by
  match r, h with
  | [], h => simp [ParseStopWaitingFrame, ReadByte] at h
  | [_], h => simp [ParseStopWaitingFrame, ReadByte] at h
  | t :: e :: tail, h =>
    rw [parse_cons_cons] at h
    by_cases h1 : tail.length < l.toNat
    · simp [h1] at h
    · by_cases h2 : uint64 (beValue (tail.take l.toNat)) > uint64 pn
      · simp [h1, h2] at h
      · simp only [h1, h2, if_false, Except.ok.injEq, Prod.mk.injEq] at h
        exact ⟨t, e, tail, rfl, Nat.le_of_not_lt h1, Nat.le_of_not_lt h2, h.1.symm, h.2.symm⟩

/-! ## Further properties of the codec -/

/-- C11, as stated, fails: on the zero frame `Write` fails with `errPacketNumberNotSet`, and on
a frame with an unset width with `errPacketNumberLenNotSet`, after it has written the type
byte and the entropy byte to the empty buffer. -/
theorem write_notset_buffer_counterexample :
    (StopWaitingFrame.zero.Write [] 0).2 = some .errPacketNumberNotSet ∧
    (StopWaitingFrame.zero.Write [] 0).1 = [0x06, 0] ∧
    (StopWaitingFrame.zero.Write [] 0).1 ≠ [] ∧
    (noLenFrame.Write [] 0).2 = some .errPacketNumberLenNotSet ∧
    (noLenFrame.Write [] 0).1 = [0x06, 0] ∧
    (noLenFrame.Write [] 0).1 ≠ [] := by
  decide

/-- C11, amended: for every frame and every initial buffer, if `Write` fails with
`errPacketNumberNotSet` or `errPacketNumberLenNotSet`, the buffer is the initial buffer
followed by the two bytes `0x06` and entropy: both are written before the checks and stay. -/
theorem write_notset_buffer (f : StopWaitingFrame) (b : List Nat) (version : Nat)
    (herr : (f.Write b version).2 = some .errPacketNumberNotSet ∨
      (f.Write b version).2 = some .errPacketNumberLenNotSet) :
    (f.Write b version).1 = b ++ [0x06, f.Entropy] ∧
    (f.Write b version).1.length = b.length + 2 := by
  have hne : (f.Write b version).2 ≠ none := by
    rcases herr with h | h <;> simp [h]
  rw [write_buffer_of_error f b version hne]
  simp

/-- Witness of the amended C11: a frame with an unset width, written after one earlier byte. -/
theorem write_notset_buffer_witness :
    ((noLenFrame.Write [0x01] 0).2 = some .errPacketNumberNotSet ∨
      (noLenFrame.Write [0x01] 0).2 = some .errPacketNumberLenNotSet) ∧
    ((noLenFrame.Write [0x01] 0).1 = [0x01] ++ [0x06, noLenFrame.Entropy] ∧
      (noLenFrame.Write [0x01] 0).1.length = [0x01].length + 2) :=
  ⟨by decide, write_notset_buffer noLenFrame [0x01] 0 (by decide)⟩

/-- C12, as stated, fails: decoding the bytes of the one-byte scenario under the ambient
packet number 1000 and the width 1 returns a frame whose packet number is 0 and whose width
is unset. -/
theorem parse_context_counterexample :
    ParseStopWaitingFrame [0x06, 0xAB, 0x0A] 1000 .PacketNumberLen1
      = .ok ({ LeastUnacked := 990, Entropy := 0xAB,
               PacketNumberLen := .PacketNumberLenInvalid, PacketNumber := 0 }, []) ∧
    (0 : Nat) ≠ 1000 ∧
    PacketNumberLen.PacketNumberLenInvalid ≠ PacketNumberLen.PacketNumberLen1 := by
  decide

/-- C12, amended: for every input on which `ParseStopWaitingFrame` succeeds, the returned
frame has the packet number 0 and an unset width, the zero values of the two fields: the
ambient packet number and width serve the decoding only and are not recorded. -/
theorem parse_context (r : List Nat) (packetNumber : Nat) (l : PacketNumberLen)
    (g : StopWaitingFrame) (rest : List Nat)
    (hok : ParseStopWaitingFrame r packetNumber l = .ok (g, rest)) :
    g.PacketNumber = 0 ∧ g.PacketNumberLen = .PacketNumberLenInvalid := by
  obtain ⟨t, e, tail, -, -, -, hg, -⟩ := parse_ok_inv r packetNumber l g rest hok
  rw [hg]
  exact ⟨rfl, rfl⟩

/-- Witness of the amended C12: the bytes of the one-byte scenario. -/
theorem parse_context_witness :
    ParseStopWaitingFrame [0x06, 0xAB, 0x0A] 1000 .PacketNumberLen1
      = .ok ({ LeastUnacked := 990, Entropy := 0xAB,
               PacketNumberLen := .PacketNumberLenInvalid, PacketNumber := 0 }, []) ∧
    ((StopWaitingFrame.mk 990 0xAB .PacketNumberLenInvalid 0).PacketNumber = 0 ∧
      (StopWaitingFrame.mk 990 0xAB .PacketNumberLenInvalid 0).PacketNumberLen
        = .PacketNumberLenInvalid) :=
  ⟨by decide, parse_context [0x06, 0xAB, 0x0A] 1000 .PacketNumberLen1 _ [] (by decide)⟩

/-- The bytes of `bigEndian`, position by position: byte `i` of `n` holds the digit of weight
`256 ^ (n - 1 - i)`, the most significant digit coming first. -/
theorem bigEndian_eq_map (n v : Nat) :
    bigEndian n v = (List.range n).map (fun i => v / 256 ^ (n - 1 - i) % 256) := by
  induction n generalizing v with
  | zero => rfl
  | succ n ih =>
    rw [bigEndian, ih, List.range_succ, List.map_append]
    congr 1
    · apply List.map_congr_left
      intro i hi
      have hi2 : i < n := List.mem_range.1 hi
      have hk : n + 1 - 1 - i = (n - 1 - i) + 1 := by omega
      rw [hk, pow_succ', Nat.div_div_eq_div_mul]
    · simp

/-- C13 (one-byte wire layout): for every frame with a 64-bit packet number other than 0, a
least unacked packet number at most the packet number, the width 1 and a delta of at most
255, `Write` appends exactly the three bytes `0x06`, entropy, delta; and decoding these
three bytes under the frame's packet number and the width 1 returns the frame's least
unacked packet number and entropy. -/
theorem write_one_byte_layout (f : StopWaitingFrame) (b : List Nat) (version : Nat)
    (hpn : f.PacketNumber < 2 ^ 64)
    (h0 : f.PacketNumber ≠ 0)
    (hle : f.LeastUnacked ≤ f.PacketNumber)
    (hlen : f.PacketNumberLen = .PacketNumberLen1)
    (hfit : f.PacketNumber - f.LeastUnacked ≤ 255) :
    f.Write b version = (b ++ [0x06, f.Entropy, f.PacketNumber - f.LeastUnacked], none) ∧
    ∃ g rest,
      ParseStopWaitingFrame [0x06, f.Entropy, f.PacketNumber - f.LeastUnacked]
        f.PacketNumber .PacketNumberLen1 = .ok (g, rest) ∧
      g.LeastUnacked = f.LeastUnacked ∧ g.Entropy = f.Entropy := by
  have hne : f.PacketNumberLen ≠ .PacketNumberLenInvalid := by rw [hlen]; decide
  have hmod : (f.PacketNumber - f.LeastUnacked) % 256 = f.PacketNumber - f.LeastUnacked :=
    Nat.mod_eq_of_lt (by omega)
  have hbe : bigEndian 1 (f.PacketNumber - f.LeastUnacked)
      = [f.PacketNumber - f.LeastUnacked] := by
    simp [bigEndian, hmod]
  constructor
  · rw [write_of_valid f b version h0 hle hne, hlen]
    simp [PacketNumberLen.toNat, hbe]
  · have hp := parse_bigEndian 0x06 f.Entropy (f.PacketNumber - f.LeastUnacked)
      f.PacketNumber .PacketNumberLen1 hpn
      (le_trans (Nat.mod_le _ _) (Nat.sub_le _ _))
    simp only [PacketNumberLen.toNat, hbe, pow_one, hmod] at hp
    refine ⟨_, _, hp, ?_, rfl⟩
    show f.PacketNumber - (f.PacketNumber - f.LeastUnacked) = f.LeastUnacked
    omega

/-- Witness of C13, the one-byte scenario: packet number 1000, least unacked 990 and entropy
`0xAB` give the bytes `0x06`, `0xAB`, `0x0A`, which decode to 990 and `0xAB`. -/
theorem write_one_byte_layout_witness :
    scenarioFrame.PacketNumber < 2 ^ 64 ∧
    scenarioFrame.PacketNumber ≠ 0 ∧
    scenarioFrame.LeastUnacked ≤ scenarioFrame.PacketNumber ∧
    scenarioFrame.PacketNumberLen = .PacketNumberLen1 ∧
    scenarioFrame.PacketNumber - scenarioFrame.LeastUnacked ≤ 255 ∧
    (scenarioFrame.Write [] 0 = ([0x06, 0xAB, 0x0A], none) ∧
      ∃ g rest,
        ParseStopWaitingFrame [0x06, 0xAB, 0x0A] 1000 .PacketNumberLen1 = .ok (g, rest) ∧
        g.LeastUnacked = 990 ∧ g.Entropy = 0xAB) :=
  ⟨by decide, by decide, by decide, by decide, by decide,
    write_one_byte_layout scenarioFrame [] 0 (by decide) (by decide) (by decide) (by decide)
      (by decide)⟩

/-- C14 (multi-byte wire layout): for every frame and buffer on which `Write` succeeds, with
any width (2, 4 and 6 among them) and a delta that fits the width, the bytes appended are
`0x06`, the entropy, and then the delta as an unsigned integer of that many bytes in
big-endian order:
byte `i` of the field is the digit of weight `256 ^ (width - 1 - i)` of the delta, and the
field read most significant byte first is the delta. -/
theorem write_multi_byte_layout (f : StopWaitingFrame) (b : List Nat) (version : Nat)
    (hok : (f.Write b version).2 = none)
    (hfit : f.PacketNumber - f.LeastUnacked < 2 ^ (8 * f.PacketNumberLen.toNat)) :
    ∃ field,
      (f.Write b version).1 = b ++ [0x06, f.Entropy] ++ field ∧
      field = (List.range f.PacketNumberLen.toNat).map
        (fun i => (f.PacketNumber - f.LeastUnacked)
          / 256 ^ (f.PacketNumberLen.toNat - 1 - i) % 256) ∧
      field.length = f.PacketNumberLen.toNat ∧
      IsBytes field ∧
      beValue field = f.PacketNumber - f.LeastUnacked := by
  rw [write_error] at hok
  have h0 : f.PacketNumber ≠ 0 := by
    intro h; simp [h] at hok
  have hle : f.LeastUnacked ≤ f.PacketNumber := by
    by_contra h; simp [h0, Nat.lt_of_not_le h] at hok
  have hne : f.PacketNumberLen ≠ .PacketNumberLenInvalid := by
    intro h; simp [h0, Nat.not_lt.2 hle, h] at hok
  rw [two_pow_eight_mul] at hfit
  refine ⟨bigEndian f.PacketNumberLen.toNat (f.PacketNumber - f.LeastUnacked), ?_,
    bigEndian_eq_map _ _, length_bigEndian _ _, isBytes_bigEndian _ _, ?_⟩
  · rw [write_of_valid f b version h0 hle hne]
  · rw [beValue_bigEndian, Nat.mod_eq_of_lt hfit]

/-- Witness of C14, the multi-byte scenario: packet number 100000, least unacked 99000 and
width 2 give the delta 1000 and the bytes `0x06`, entropy, `0x03`, `0xE8`. -/
theorem write_multi_byte_layout_witness :
    (multiByteFrame.Write [] 0).2 = none ∧
    multiByteFrame.PacketNumberLen.toNat = 2 ∧
    multiByteFrame.PacketNumber - multiByteFrame.LeastUnacked
      < 2 ^ (8 * multiByteFrame.PacketNumberLen.toNat) ∧
    (multiByteFrame.Write [] 0).1 = [0x06, multiByteFrame.Entropy, 0x03, 0xE8] ∧
    ∃ field,
      (multiByteFrame.Write [] 0).1 = [] ++ [0x06, multiByteFrame.Entropy] ++ field ∧
      field = (List.range multiByteFrame.PacketNumberLen.toNat).map
        (fun i => (multiByteFrame.PacketNumber - multiByteFrame.LeastUnacked)
          / 256 ^ (multiByteFrame.PacketNumberLen.toNat - 1 - i) % 256) ∧
      field.length = multiByteFrame.PacketNumberLen.toNat ∧
      IsBytes field ∧
      beValue field = multiByteFrame.PacketNumber - multiByteFrame.LeastUnacked :=
  ⟨by decide, by decide, by decide, by decide,
    write_multi_byte_layout multiByteFrame [] 0 (by decide) (by decide)⟩

/-- A successful `Write` passed its three checks. -/
theorem write_ok_inv (f : StopWaitingFrame) (b : List Nat) (v : Nat)
    (hok : (f.Write b v).2 = none) :
    f.PacketNumber ≠ 0 ∧ f.LeastUnacked ≤ f.PacketNumber ∧
      f.PacketNumberLen ≠ .PacketNumberLenInvalid := by
  rw [write_error] at hok
  have h0 : f.PacketNumber ≠ 0 := by
    intro h; simp [h] at hok
  have hle : f.LeastUnacked ≤ f.PacketNumber := by
    by_contra h; simp [h0, Nat.lt_of_not_le h] at hok
  have hne : f.PacketNumberLen ≠ .PacketNumberLenInvalid := by
    intro h; simp [h0, Nat.not_lt.2 hle, h] at hok
  exact ⟨h0, hle, hne⟩

/-- C15 (partial writes stay, the buffer is append-only): for every frame and every initial
buffer, the buffer after `Write` is the initial buffer, unchanged, followed by the two bytes
`0x06` and entropy and by a field; the field is empty after a failing call and has
`packet_number_len` bytes after a successful one. -/
theorem write_append_only (f : StopWaitingFrame) (b : List Nat) (version : Nat) :
    ∃ field,
      (f.Write b version).1 = b ++ [0x06, f.Entropy] ++ field ∧
      field.length = (if (f.Write b version).2 = none then f.PacketNumberLen.toNat else 0) ∧
      (f.Write b version).1.length
        = (if (f.Write b version).2 = none then b.length + (2 + f.PacketNumberLen.toNat)
           else b.length + 2) ∧
      (f.Write b version).1.take b.length = b := by
  by_cases hok : (f.Write b version).2 = none
  · obtain ⟨h0, hle, hne⟩ := write_ok_inv f b version hok
    refine ⟨bigEndian f.PacketNumberLen.toNat (f.PacketNumber - f.LeastUnacked), ?_, ?_, ?_, ?_⟩
    · rw [write_of_valid f b version h0 hle hne]
    · simp [hok, length_bigEndian]
    · rw [if_pos hok, write_of_valid f b version h0 hle hne]
      simp [length_bigEndian]; omega
    · rw [write_of_valid f b version h0 hle hne]
      simp [List.append_assoc, List.take_append_eq_append_take]
  · refine ⟨[], ?_, ?_, ?_, ?_⟩
    · rw [write_buffer_of_error f b version hok, List.append_nil]
    · simp [hok]
    · rw [if_neg hok, write_buffer_of_error f b version hok]
      simp
    · rw [write_buffer_of_error f b version hok]
      simp [List.take_append_eq_append_take]

/-- C16 (decode consumes exactly the frame): for every width and every input on which
`ParseStopWaitingFrame` succeeds, the input holds at least `2 + packet_number_len` bytes, the
unread remainder is the input without its first `2 + packet_number_len` bytes, and the same
frame is returned whatever follows that prefix. -/
theorem parse_consumes (r : List Nat) (packetNumber : Nat) (l : PacketNumberLen)
    (g : StopWaitingFrame) (rest : List Nat)
    (hok : ParseStopWaitingFrame r packetNumber l = .ok (g, rest)) :
    2 + l.toNat ≤ r.length ∧
    rest = r.drop (2 + l.toNat) ∧
    rest.length + (2 + l.toNat) = r.length ∧
    ∀ tail : List Nat,
      ParseStopWaitingFrame (r.take (2 + l.toNat) ++ tail) packetNumber l = .ok (g, tail) := by
  obtain ⟨t, e, tl, rfl, hlen, hd, hg, hrest⟩ := parse_ok_inv r packetNumber l g rest hok
  have hdrop : (t :: e :: tl).drop (2 + l.toNat) = tl.drop l.toNat := by
    rw [Nat.add_comm]; rfl
  have htake : (t :: e :: tl).take (2 + l.toNat) = t :: e :: tl.take l.toNat := by
    rw [Nat.add_comm]; rfl
  have hlt : (tl.take l.toNat).length = l.toNat := by
    rw [List.length_take]; omega
  refine ⟨by simp; omega, by rw [hdrop, hrest], ?_, ?_⟩
  · rw [hrest, List.length_drop]; simp; omega
  · intro tail
    have h1 : ¬ (tl.take l.toNat ++ tail).length < l.toNat := by
      rw [List.length_append, hlt]; omega
    have h2 : (tl.take l.toNat ++ tail).take l.toNat = tl.take l.toNat := by
      rw [List.take_append_of_le_length (le_of_eq hlt.symm), List.take_take, Nat.min_self]
    have h3 : (tl.take l.toNat ++ tail).drop l.toNat = tail := by
      rw [List.drop_append_of_le_length (le_of_eq hlt.symm)]
      simp [List.drop_eq_nil_of_le, hlt]
    have h4 : ¬ uint64 (beValue (tl.take l.toNat)) > uint64 packetNumber := Nat.not_lt.2 hd
    rw [htake, List.cons_append, List.cons_append, parse_cons_cons, h2, h3, hg, if_neg h1,
      if_neg h4]

/-- Witness of C16: the bytes of the one-byte scenario followed by two more bytes. -/
theorem parse_consumes_witness :
    ParseStopWaitingFrame [0x06, 0xAB, 0x0A, 0x11, 0x22] 1000 .PacketNumberLen1
      = .ok (StopWaitingFrame.mk 990 0xAB .PacketNumberLenInvalid 0, [0x11, 0x22]) ∧
    (2 + PacketNumberLen.PacketNumberLen1.toNat ≤ [0x06, 0xAB, 0x0A, 0x11, 0x22].length ∧
      [0x11, 0x22]
        = [0x06, 0xAB, 0x0A, 0x11, 0x22].drop (2 + PacketNumberLen.PacketNumberLen1.toNat) ∧
      [0x11, 0x22].length + (2 + PacketNumberLen.PacketNumberLen1.toNat)
        = [0x06, 0xAB, 0x0A, 0x11, 0x22].length ∧
      ∀ tail : List Nat,
        ParseStopWaitingFrame
          ([0x06, 0xAB, 0x0A, 0x11, 0x22].take (2 + PacketNumberLen.PacketNumberLen1.toNat)
            ++ tail) 1000 .PacketNumberLen1
          = .ok (StopWaitingFrame.mk 990 0xAB .PacketNumberLenInvalid 0, tail)) :=
  ⟨by decide, parse_consumes [0x06, 0xAB, 0x0A, 0x11, 0x22] 1000 .PacketNumberLen1 _ _
    (by decide)⟩

/-- C17 (the type tag is not validated again): two inputs that differ in their first byte only
give the same result of `ParseStopWaitingFrame` under the same ambient packet number and
width, the same error or the same frame and remainder; so a first byte other than `0x06` is
accepted, as `0xFF` is before the entropy and delta of the one-byte scenario. -/
theorem parse_ignores_type_byte (t t' : Nat) (rest : List Nat) (packetNumber : Nat)
    (l : PacketNumberLen) :
    ParseStopWaitingFrame (t :: rest) packetNumber l
      = ParseStopWaitingFrame (t' :: rest) packetNumber l ∧
    ParseStopWaitingFrame [0xFF, 0xAB, 0x0A] 1000 .PacketNumberLen1
      = .ok (StopWaitingFrame.mk 990 0xAB .PacketNumberLenInvalid 0, []) := by
  constructor
  · cases rest with
    | nil => rfl
    | cons e tl => rw [parse_cons_cons, parse_cons_cons]
  · decide

/-- C18 (decode accepts every successful encode): for every frame with a 64-bit packet number
other than 0, a least unacked packet number at most the packet number and a width among 1, 2,
4, 6, whatever the delta, `Write` on the empty buffer succeeds and `ParseStopWaitingFrame` on
the written bytes, under the frame's packet number and width, succeeds; the least unacked
packet number it returns is the packet number minus the delta modulo `2 ^ (8 * width)`,
which lies between the frame's least unacked packet number and its packet number and
equals the former exactly when the delta is below `2 ^ (8 * width)`. -/
theorem parse_accepts_written (f : StopWaitingFrame) (version : Nat)
    (hpn : f.PacketNumber < 2 ^ 64)
    (h0 : f.PacketNumber ≠ 0)
    (hle : f.LeastUnacked ≤ f.PacketNumber)
    (hlen : f.PacketNumberLen ≠ .PacketNumberLenInvalid) :
    (f.Write [] version).2 = none ∧
    ∃ g rest,
      ParseStopWaitingFrame (f.Write [] version).1 f.PacketNumber f.PacketNumberLen
        = .ok (g, rest) ∧
      g.LeastUnacked = f.PacketNumber
        - (f.PacketNumber - f.LeastUnacked) % 2 ^ (8 * f.PacketNumberLen.toNat) ∧
      f.LeastUnacked ≤ g.LeastUnacked ∧
      g.LeastUnacked ≤ f.PacketNumber ∧
      (g.LeastUnacked = f.LeastUnacked ↔
        f.PacketNumber - f.LeastUnacked < 2 ^ (8 * f.PacketNumberLen.toNat)) := by
  rw [write_of_valid f [] version h0 hle hlen, two_pow_eight_mul]
  have hpos : 0 < 256 ^ f.PacketNumberLen.toNat := by positivity
  have hm1 := Nat.mod_le (f.PacketNumber - f.LeastUnacked) (256 ^ f.PacketNumberLen.toNat)
  have hm2 := Nat.mod_lt (f.PacketNumber - f.LeastUnacked) hpos
  have hm3 : f.PacketNumber - f.LeastUnacked < 256 ^ f.PacketNumberLen.toNat →
      (f.PacketNumber - f.LeastUnacked) % 256 ^ f.PacketNumberLen.toNat
        = f.PacketNumber - f.LeastUnacked := Nat.mod_eq_of_lt
  refine ⟨rfl, _, _, parse_bigEndian _ _ _ _ _ hpn (by omega), rfl, ?_, ?_, ?_⟩
  · show f.LeastUnacked ≤ f.PacketNumber
      - (f.PacketNumber - f.LeastUnacked) % 256 ^ f.PacketNumberLen.toNat
    omega
  · show f.PacketNumber
      - (f.PacketNumber - f.LeastUnacked) % 256 ^ f.PacketNumberLen.toNat ≤ f.PacketNumber
    omega
  · show f.PacketNumber
      - (f.PacketNumber - f.LeastUnacked) % 256 ^ f.PacketNumberLen.toNat = f.LeastUnacked
      ↔ f.PacketNumber - f.LeastUnacked < 256 ^ f.PacketNumberLen.toNat
    constructor
    · intro h; omega
    · intro h; have := hm3 h; omega

/-- Witness of C18: packet number 1000, least unacked 0 and width 1; the delta 1000 is written
as 232 and decodes to the least unacked packet number 768. -/
theorem parse_accepts_written_witness :
    wideDeltaFrame.PacketNumber < 2 ^ 64 ∧
    wideDeltaFrame.PacketNumber ≠ 0 ∧
    wideDeltaFrame.LeastUnacked ≤ wideDeltaFrame.PacketNumber ∧
    wideDeltaFrame.PacketNumberLen ≠ .PacketNumberLenInvalid ∧
    ParseStopWaitingFrame (wideDeltaFrame.Write [] 0).1 1000 .PacketNumberLen1
      = .ok (StopWaitingFrame.mk 768 0 .PacketNumberLenInvalid 0, []) ∧
    ((wideDeltaFrame.Write [] 0).2 = none ∧
      ∃ g rest,
        ParseStopWaitingFrame (wideDeltaFrame.Write [] 0).1 wideDeltaFrame.PacketNumber
          wideDeltaFrame.PacketNumberLen = .ok (g, rest) ∧
        g.LeastUnacked = wideDeltaFrame.PacketNumber
          - (wideDeltaFrame.PacketNumber - wideDeltaFrame.LeastUnacked)
            % 2 ^ (8 * wideDeltaFrame.PacketNumberLen.toNat) ∧
        wideDeltaFrame.LeastUnacked ≤ g.LeastUnacked ∧
        g.LeastUnacked ≤ wideDeltaFrame.PacketNumber ∧
        (g.LeastUnacked = wideDeltaFrame.LeastUnacked ↔
          wideDeltaFrame.PacketNumber - wideDeltaFrame.LeastUnacked
            < 2 ^ (8 * wideDeltaFrame.PacketNumberLen.toNat))) :=
  ⟨by decide, by decide, by decide, by decide, by decide,
    parse_accepts_written wideDeltaFrame 0 (by decide) (by decide) (by decide) (by decide)⟩

end Frames
